import Mathlib

/-!
Verification development for the BankToCFO transaction pipeline.

Strings are modelled as `List Char` (ASCII is the relevant fragment for all
bank-statement inputs; Python `str.lower` is modelled on the basic latin
range).  Monetary amounts are modelled as rationals `ℚ`: every decimal
literal appearing in the repository and its comparisons against the `5`
threshold are exactly representable, so no float-rounding behaviour is
relevant to the properties treated here.

The definitions below are direct translations of
`src/services/categorizer.py`, `src/services/parser.py` and
`src/services/pdf_parser.py`.
-/

namespace BankToCFO

/-- Strings as character lists. -/
abbrev Str := List Char

/-- Convert a Lean string literal to the `Str` model. -/
def str (x : String) : Str := x.toList

/-- Model of Python `str.lower` on a single character (basic latin range). -/
def lowChar (c : Char) : Char :=
  if 65 ≤ c.toNat ∧ c.toNat ≤ 90 then Char.ofNat (c.toNat + 32) else c

/-- Model of Python `str.lower`: `description.lower()` in `clean_description`. -/
def lowerStr (s : Str) : Str := s.map lowChar

/-- The alternatives of the boilerplate-phrase regex in `clean_description`,
in the order they appear in the alternation. -/
def phrases : List Str :=
  [str "debit card purchase", str "pos debit", str "recurring deb card purch",
   str "ach withdrawal", str "ach dep", str "payment receipt credit",
   str "usaa credit", str "usaa debit", str "wire transfer credit"]

/-- Fuelled scanner for `re.sub(phrase-alternation, "", desc)`: at each
position the first alternative that matches is deleted and scanning resumes
after the match; otherwise the character is kept.  All alternatives are
nonempty literals, so `fuel = length` always suffices. -/
def dephraseF : Nat → Str → Str
  | 0, s => s
  | _ + 1, [] => []
  | fuel + 1, c :: rest =>
    match phrases.find? (fun p => p.isPrefixOf (c :: rest)) with
    | some p => dephraseF fuel ((c :: rest).drop p.length)
    | none => c :: dephraseF fuel rest

/-- Model of the boilerplate-phrase removal stage of `clean_description`. -/
def dephrase (s : Str) : Str := dephraseF s.length s

/-- Model of the `\w` character class of Python regexes (ASCII fragment). -/
def isWordChar (c : Char) : Bool := c.isAlphanum || c == '_'

/-- Fuelled scanner for `re.sub(r"\b\d{6,10}\b", "", desc)`.  The boolean
argument records whether the previous character of the original string is a
word character (initially `false`: start of string behaves as a boundary).
The regex matches exactly at positions with a word boundary before a maximal
digit run of length 6 to 10 that is followed by a non-word character or the
end of the string. -/
def decodeF : Nat → Bool → Str → Str
  | 0, _, s => s
  | _ + 1, _, [] => []
  | fuel + 1, prevW, c :: rest =>
    let run := (c :: rest).takeWhile (fun x => x.isDigit)
    let after := (c :: rest).drop run.length
    if !prevW && decide (6 ≤ run.length) && decide (run.length ≤ 10) &&
        (match after with | [] => true | d :: _ => !isWordChar d) then
      decodeF fuel true after
    else
      c :: decodeF fuel (isWordChar c) rest

/-- Model of the transaction-code removal stage of `clean_description`. -/
def decode (s : Str) : Str := decodeF s.length false s

/-- Model of `re.sub(r"\*+", "", desc)`: removes every asterisk. -/
def deast (s : Str) : Str := s.filter (fun c => c != '*')

/-- Model of the `\s` character class of Python regexes (ASCII fragment). -/
def isWS (c : Char) : Bool :=
  c == ' ' || c == '\t' || c == '\n' || c == '\x0d' || c == '\x0b' || c == '\x0c'

/-- Accumulator version of `re.sub(r"\s+", " ", desc)`: each maximal
whitespace run is replaced by a single space (emitted at the first character
of the run).  The flag records whether we are inside a whitespace run. -/
def collapseAux : Bool → Str → Str
  | _, [] => []
  | true, c :: rest =>
    if isWS c then collapseAux true rest else c :: collapseAux false rest
  | false, c :: rest =>
    if isWS c then ' ' :: collapseAux true rest else c :: collapseAux false rest

/-- Model of the whitespace-collapsing stage of `clean_description`. -/
def collapse (s : Str) : Str := collapseAux false s

/-- Model of Python `str.strip()`: removes leading and trailing whitespace. -/
def strip (s : Str) : Str := ((s.dropWhile isWS).reverse.dropWhile isWS).reverse

/-- Translation of `clean_description` from `src/services/categorizer.py`:
lowercase, remove boilerplate phrases, remove 6-to-10-digit standalone
transaction codes, remove asterisks, collapse whitespace and strip. -/
def clean_description (description : Str) : Str :=
  strip (collapse (deast (decode (dephrase (lowerStr description)))))

/-- Substring containment: Python `needle in hay` for strings. -/
def isSub (needle hay : Str) : Bool :=
  match hay with
  | [] => needle.isEmpty
  | _ :: t => needle.isPrefixOf hay || isSub needle t

/-- Translation of the `CATEGORY_RULES` dict of `src/services/categorizer.py`
as an ordered association list (Python dicts preserve insertion order, and
`categorize_transaction` iterates them in that order). -/
def CATEGORY_RULES : List (Str × List Str) := [
  (str "Software", [str "aws", str "amazon web services", str "azure", str "google cloud", str "google workspace", str "github", str "gitlab", str "slack", str "zoom", str "microsoft 365", str "office 365", str "adobe", str "dropbox", str "docusign", str "quickbooks", str "salesforce", str "shopify", str "squarespace", str "wix", str "godaddy", str "namecheap", str "heroku", str "vercel", str "netlify", str "digitalocean", str "linode"]),
  (str "Subscriptions", [str "hulu", str "netflix", str "spotify", str "apple.com/bill", str "apple music", str "apple tv", str "disney+", str "disney plus", str "youtube", str "youtube premium", str "amazon prime", str "hbo max", str "paramount", str "peacock", str "discovery+", str "crunchyroll", str "icloud", str "google one", str "audible", str "kindle unlimited", str "scribd", str "pixieset", str "patreon", str "onlyfans", str "twitch"]),
  (str "Revenue", [str "payroll", str "salary", str "deposit", str "payment received", str "payment receipt credit", str "venmo", str "zelle", str "paypal", str "stripe", str "square", str "invoice", str "check deposit", str "direct deposit", str "ach credit", str "wire transfer credit", str "robinhood securities", str "promotional credit", str "canno payroll"]),
  (str "Debt Payments", [str "loan payment", str "mortgage", str "student loan", str "car payment", str "auto loan", str "credit card payment", str "applecard", str "discover e-payment", str "chase credit", str "citi card", str "capital one", str "amex", str "synchrony", str "barclays", str "bk of amer visa", str "wells fargo payment", str "usaa loan payment"]),
  (str "Fitness", [str "gym", str "fitness", str "yoga", str "pilates", str "crossfit", str "equinox", str "f45", str "orangetheory", str "peloton", str "crunch", str "planet fitness", str "la fitness", str "24 hour fitness", str "anytime fitness", str "eos fitness", str "gold\x27s gym", str "lifetime fitness", str "climbing", str "boxing", str "martial arts", str "tennis"]),
  (str "Gas & Fuel", [str "gas", str "fuel", str "shell", str "chevron", str "exxon", str "mobil", str "bp", str "texaco", str "circle k", str "7-eleven", str "speedway", str "wawa", str "qt ", str "quiktrip", str "costco gas", str "sam\x27s club gas", str "arco", str "valero", str "sunoco", str "marathon", str "phillips 66", str "conoco", str "pilot", str "flying j", str "outside", str "pump"]),
  (str "Fast Food", [str "mcdonalds", str "mcdonald\x27s", str "burger king", str "wendy\x27s", str "taco bell", str "chick-fil-a", str "chick fil a", str "popeyes", str "kfc", str "chipotle", str "panda express", str "subway", str "arby\x27s", str "sonic", str "jack in the box", str "in-n-out", str "five guys", str "shake shack", str "raising cane", str "canes", str "del taco", str "qdoba", str "moe\x27s", str "jersey mike", str "jimmy john", str "panera", str "panera bread", str "dunkin", str "dunkin donuts", str "starbucks", str "dutch bros", str "caribou coffee"]),
  (str "Restaurants", [str "restaurant", str "cafe", str "bistro", str "grill", str "tavern", str "bar", str "pub", str "steakhouse", str "sushi", str "pizza", str "mexican", str "italian", str "chinese", str "thai", str "indian", str "japanese", str "uchi", str "taco boys", str "bahama bucks", str "sotol", str "applebee", str "chili\x27s", str "olive garden", str "red lobster", str "outback", str "texas roadhouse", str "longhorn", str "cheesecake factory", str "bj\x27s restaurant", str "buffalo wild wings", str "hooters", str "twin peaks", str "yard house", str "365 market"]),
  (str "Food Delivery", [str "doordash", str "uber eats", str "grubhub", str "postmates", str "seamless", str "instacart", str "gopuff", str "favor", str "waitr", str "bite squad"]),
  (str "Groceries", [str "grocery", str "supermarket", str "whole foods", str "trader joe", str "safeway", str "kroger", str "publix", str "albertsons", str "food lion", str "wegmans", str "aldi", str "lidl", str "fresh market", str "sprouts", str "natural grocers", str "harris teeter"]),
  (str "Shopping", [str "walmart", str "target", str "costco", str "sam\x27s club", str "bj\x27s wholesale", str "amazon", str "amzn mktp", str "ebay", str "etsy", str "macy\x27s", str "nordstrom", str "kohl\x27s", str "jcpenney", str "dillard\x27s", str "tj maxx", str "ross", str "marshalls", str "burlington", str "old navy", str "gap", str "banana republic", str "h&m", str "zara", str "forever 21", str "urban outfitters", str "anthropologie", str "free people", str "klarna", str "afterpay", str "affirm", str "gymshark", str "pandora"]),
  (str "Healthcare", [str "pharmacy", str "cvs", str "walgreens", str "rite aid", str "duane reade", str "doctor", str "hospital", str "medical", str "dental", str "dentist", str "vision", str "optometry", str "urgent care", str "clinic", str "lab", str "laboratory", str "physical therapy", str "chiropractor", str "therapist", str "counseling", str "health", str "ro health", str "hims", str "hers", str "nurx", str "lemonaid"]),
  (str "Entertainment", [str "movie", str "cinema", str "theater", str "theatre", str "concert", str "show", str "live nation", str "ticketmaster", str "stubhub", str "amc", str "regal", str "cinemark", str "imax", str "bowling", str "arcade", str "dave & buster", str "main event", str "topgolf", str "golf", str "mini golf", str "escape room", str "trampoline park", str "theme park", str "amusement", str "zoo", str "aquarium", str "museum"]),
  (str "Personal Care", [str "salon", str "haircut", str "barber", str "spa", str "massage", str "nail", str "manicure", str "pedicure", str "waxing", str "facial", str "beauty", str "cosmetics", str "sephora", str "ulta", str "bath & body", str "lush", str "maestros barber"]),
  (str "Pet Care", [str "pet", str "veterinary", str "vet", str "petsmart", str "petco", str "chewy", str "dog", str "cat", str "animal hospital", str "grooming"]),
  (str "Education", [str "tuition", str "school", str "university", str "college", str "academy", str "course", str "udemy", str "coursera", str "skillshare", str "masterclass", str "linkedin learning", str "pluralsight", str "datacamp", str "bootcamp"]),
  (str "Childcare", [str "daycare", str "childcare", str "babysitter", str "nanny", str "tutor", str "tutoring"]),
  (str "Home & Garden", [str "home depot", str "lowes", str "lowe\x27s", str "ace hardware", str "menards", str "home improvement", str "garden", str "landscaping", str "lawn", str "nursery", str "ikea", str "bed bath", str "crate and barrel", str "williams sonoma", str "pottery barn", str "west elm", str "wayfair", str "overstock"]),
  (str "Transportation", [str "uber", str "lyft", str "taxi", str "cab", str "bus", str "train", str "metro", str "subway", str "transit", str "parking", str "park", str "toll", str "ez pass", str "fastrak", str "parking.com", str "parkwhiz", str "spothero"]),
  (str "Travel", [str "airline", str "flight", str "airport", str "hotel", str "motel", str "resort", str "airbnb", str "vrbo", str "booking.com", str "expedia", str "hotels.com", str "marriott", str "hilton", str "hyatt", str "ihg", str "best western", str "southwest", str "delta", str "united", str "american airlines", str "jetblue", str "spirit", str "frontier", str "alaska airlines", str "rental car", str "hertz", str "enterprise", str "budget", str "avis", str "national", str "alamo", str "dollar", str "thrifty", str "turo", str "zipcar"]),
  (str "Investments", [str "robinhood", str "coinbase", str "crypto", str "bitcoin", str "ethereum", str "etrade", str "schwab", str "fidelity", str "vanguard", str "ameritrade", str "webull", str "acorns", str "stash", str "betterment", str "wealthfront", str "jpms llc", str "jpmorgan", str "mspbna"]),
  (str "COGS", [str "inventory", str "supplies", str "wholesale", str "materials", str "merchandise", str "stock", str "vendor"]),
  (str "Marketing", [str "google ads", str "facebook ads", str "meta ads", str "instagram ads", str "linkedin ads", str "twitter ads", str "tiktok ads", str "pinterest ads", str "reddit ads", str "marketing", str "advertising", str "promotion", str "campaign", str "mailchimp", str "constant contact", str "sendinblue", str "convertkit", str "hubspot", str "semrush", str "ahrefs", str "moz"]),
  (str "Office", [str "staples", str "office depot", str "office max", str "best buy", str "apple store", str "dell", str "hp", str "lenovo", str "microsoft store", str "furniture", str "desk", str "chair", str "monitor", str "laptop", str "printer", str "computer"]),
  (str "Rent", [str "rent", str "lease", str "property", str "landlord", str "real estate", str "apartment"]),
  (str "Utilities", [str "electric", str "electricity", str "gas company", str "water", str "sewer", str "trash", str "internet", str "broadband", str "wifi", str "phone", str "mobile", str "cellular", str "at&t", str "verizon", str "t-mobile", str "sprint", str "cricket", str "boost mobile", str "metro pcs", str "comcast", str "xfinity", str "spectrum", str "cox", str "optimum", str "centurylink", str "frontier", str "dish", str "directv"]),
  (str "Insurance", [str "insurance", str "policy", str "premium", str "usaa insurance", str "state farm", str "geico", str "progressive", str "allstate", str "farmers", str "liberty mutual", str "nationwide", str "travelers", str "american family", str "health insurance", str "auto insurance", str "car insurance", str "life insurance", str "dental insurance", str "vision insurance"]),
  (str "Professional Services", [str "attorney", str "lawyer", str "legal", str "accountant", str "cpa", str "tax prep", str "consultant", str "consulting", str "freelancer", str "contractor", str "agency", str "upwork", str "fiverr", str "thumbtack", str "taskrabbit"]),
  (str "Bank Fees", [str "fee", str "service charge", str "atm fee", str "overdraft", str "wire fee", str "interest charge", str "monthly fee", str "maintenance fee", str "transfer fee", str "acctverify"]),
  (str "Payroll", [str "gusto", str "adp", str "paychex", str "payroll", str "employee", str "wages", str "salary payment", str "paycom", str "rippling", str "bamboohr", str "zenefits"]),
  (str "Taxes", [str "irs", str "tax", str "federal tax", str "state tax", str "sales tax", str "payroll tax", str "estimated tax", str "quarterly tax", str "franchise tax", str "property tax"])
]

/-- One keyword of one category matches: the keyword occurs in the cleaned
description or in the raw lowercased description. -/
def kwMatches (cleaned lowered kw : Str) : Bool :=
  isSub kw cleaned || isSub kw lowered

/-- The keyword scan of `categorize_transaction`: first category (in
declaration order) one of whose keywords matches. -/
def findCategory (rules : List (Str × List Str)) (cleaned lowered : Str) : Option Str :=
  match rules with
  | [] => none
  | (cat, kws) :: rest =>
    if kws.any (kwMatches cleaned lowered) then some cat
    else findCategory rest cleaned lowered

/-- Translation of `categorize_transaction` from
`src/services/categorizer.py`. -/
def categorize_transaction (description : Str) (amount : ℚ) : Str :=
  let cleaned := clean_description description
  let lowered := lowerStr description
  match findCategory CATEGORY_RULES cleaned lowered with
  | some cat => cat
  | none =>
    if amount > 0 then str "Income"
    else if |amount| < 5 then str "Small Expense"
    else str "Other Expense"

/-- Translation of `detect_bank_format` from `src/services/parser.py`:
lowercases the column headers and checks the four schema rules in order. -/
def detect_bank_format (cols : List Str) : Str :=
  let columns := cols.map lowerStr
  if columns.contains (str "posting date") && columns.contains (str "description") then
    str "chase"
  else if columns.contains (str "posted date") && columns.contains (str "payee") then
    str "bofa"
  else if columns.contains (str "date") && columns.contains (str "amount") then
    str "wells_fargo"
  else if columns.contains (str "date") && columns.contains (str "description") &&
      columns.contains (str "amount") then
    str "generic"
  else
    str "unknown"

/-- Association-list lookup, modelling Python dict indexing (`monthly[month]`,
`summary[category]`); Python dicts preserve insertion order, which the
association list mirrors. -/
def lookupA {α : Type} : List (Str × α) → Str → Option α
  | [], _ => none
  | (k, v) :: rest, m => if k = m then some v else lookupA rest m

/-- Projection of a transaction dict onto the fields read by
`get_monthly_summary`. -/
structure MTx where
  date : Str
  amount : ℚ
deriving DecidableEq

/-- The per-month accumulator dict of `get_monthly_summary`. -/
structure MonthAgg where
  revenue : ℚ
  expenses : ℚ
  net_income : ℚ
deriving DecidableEq

/-- One `amount` added into a month accumulator, as in the loop body of
`get_monthly_summary`: positive amounts to revenue, otherwise the absolute
value to expenses. -/
def bump (v : MonthAgg) (amount : ℚ) : MonthAgg :=
  if amount > 0 then { v with revenue := v.revenue + amount }
  else { v with expenses := v.expenses + |amount| }

/-- Dict update of the `get_monthly_summary` loop: insert a fresh zero
accumulator if the month key is absent (appended at the end, mirroring dict
insertion order), then add the amount. -/
def addTx : List (Str × MonthAgg) → Str → ℚ → List (Str × MonthAgg)
  | [], k, a => [(k, bump ⟨0, 0, 0⟩ a)]
  | (k0, v) :: rest, k, a =>
    if k0 = k then (k0, bump v a) :: rest else (k0, v) :: addTx rest k a

/-- Translation of `get_monthly_summary` from `src/services/categorizer.py`:
a first pass groups amounts by `date[:7]`, a second pass sets
`net_income = revenue - expenses`. -/
def get_monthly_summary (ts : List MTx) : List (Str × MonthAgg) :=
  (ts.foldl (fun m t => addTx m (t.date.take 7) t.amount) []).map
    (fun kv => (kv.1, { kv.2 with net_income := kv.2.revenue - kv.2.expenses }))

/-- Specification-side formula: the sum of the positive amounts of the
transactions whose month key (`date[:7]`) is `m`. -/
def monthRevenue : List MTx → Str → ℚ
  | [], _ => 0
  | t :: ts, m =>
    (if t.date.take 7 = m ∧ t.amount > 0 then t.amount else 0) + monthRevenue ts m

/-- Specification-side formula: the sum of the absolute values of the
non-positive amounts of the transactions whose month key is `m`. -/
def monthExpenses : List MTx → Str → ℚ
  | [], _ => 0
  | t :: ts, m =>
    (if t.date.take 7 = m ∧ ¬ t.amount > 0 then |t.amount| else 0) + monthExpenses ts m

/-- Projection of a transaction dict onto the fields read by
`get_category_summary`; `category = none` models a dict without a
`"category"` key. -/
structure CTx where
  category : Option Str
  amount : ℚ
deriving DecidableEq

/-- Model of `transaction.get("category", "Other")`. -/
def catOf (t : CTx) : Str := t.category.getD (str "Other")

/-- Dict update of the `get_category_summary` loop: add to an existing key or
append a fresh one. -/
def addAmt : List (Str × ℚ) → Str → ℚ → List (Str × ℚ)
  | [], k, a => [(k, a)]
  | (k0, v) :: rest, k, a =>
    if k0 = k then (k0, v + a) :: rest else (k0, v) :: addAmt rest k a

/-- Translation of `get_category_summary` from `src/services/categorizer.py`. -/
def get_category_summary (ts : List CTx) : List (Str × ℚ) :=
  ts.foldl (fun m t => addAmt m (catOf t) t.amount) []

/-- Specification-side formula: the sum of the amounts of the transactions
whose (defaulted) category is `c`. -/
def catSum : List CTx → Str → ℚ
  | [], _ => 0
  | t :: ts, c => (if catOf t = c then t.amount else 0) + catSum ts c

/-- Record produced by the vision collaborator for one transaction, as used
by `parse_pdf_statement`; the collaborator is untrusted, so `amount = none`
models a JSON `null` amount and `date` is an arbitrary string. -/
structure PRec where
  date : Str
  description : Str
  amount : Option ℚ
deriving DecidableEq

/-- Rendering of an amount inside the dedup key `f"{date}_{description}_{amount}"`.
Python renders the float amount in decimal; the model renders the rational
with numerator and denominator.  The properties proved below depend only on
equal amounts rendering equally, plus the fixed `"None"` rendering of null. -/
def fmtQ (q : ℚ) : Str :=
  (if q < 0 then ['-'] else []) ++ Nat.toDigits 10 q.num.natAbs ++
    (if q.den == 1 then [] else '/' :: Nat.toDigits 10 q.den)

/-- Python `f"{trans[\x27amount\x27]}"` for a possibly-null amount. -/
def fmtAmt : Option ℚ → Str
  | none => str "None"
  | some q => fmtQ q

/-- The composite dedup key of `parse_pdf_statement`:
`f"{date}_{description}_{amount}"`. -/
def pKey (r : PRec) : Str := r.date ++ '_' :: r.description ++ '_' :: fmtAmt r.amount

/-- Lexicographic string comparison by code point: Python `<=` on `str`,
used by `all_transactions.sort(key=lambda x: x["date"])`. -/
def strLe : Str → Str → Bool
  | [], _ => true
  | _ :: _, [] => false
  | a :: as, b :: bs =>
    if a.toNat < b.toNat then true
    else if b.toNat < a.toNat then false
    else strLe as bs

/-- The sort order of `parse_pdf_statement`: by date, ascending. -/
def pdfLe (a b : PRec) : Prop := strLe a.date b.date = true

instance : DecidableRel pdfLe :=
  fun a b => inferInstanceAs (Decidable (strLe a.date b.date = true))

/-- The dedup loop of `parse_pdf_statement`: `seen` is the set of keys already
emitted; the first record with a given key survives, later ones are dropped. -/
def dedupAux (seen : List Str) : List PRec → List PRec
  | [] => []
  | r :: rest =>
    if pKey r ∈ seen then dedupAux seen rest
    else r :: dedupAux (pKey r :: seen) rest

/-- Translation of the merge step of `parse_pdf_statement` from
`src/services/pdf_parser.py`: concatenate the per-page extraction results
(pages whose extraction failed contribute `[]`), sort by date ascending with
a stable sort (Python list.sort is stable; `List.insertionSort` is the stable
sort used as its model), then deduplicate by the composite key. -/
def parse_pdf_statement (pages : List (List PRec)) : List PRec :=
  dedupAux [] (List.insertionSort pdfLe pages.flatten)

/-- Numeric value of a digit character. -/
def digitVal (c : Char) : Nat := c.toNat - 48

/-- Numeric value of a digit string. -/
def natOfDigits (s : Str) : Nat := s.foldl (fun a c => 10 * a + digitVal c) 0

/-- Gregorian leap-year rule. -/
def isLeap (y : Nat) : Bool := (y % 4 == 0 && y % 100 != 0) || y % 400 == 0

/-- Number of days of month `m` in year `y`. -/
def daysInMonth (y m : Nat) : Nat :=
  if m == 2 then (if isLeap y then 29 else 28)
  else if m == 4 || m == 6 || m == 9 || m == 11 then 30
  else 31

/-- Specification-side predicate: the string is a valid calendar date in
`YYYY-MM-DD` form (the shape §3 of the spec requires of the `date` field). -/
def isValidDate (s : Str) : Bool :=
  match s with
  | [y1, y2, y3, y4, h1, m1, m2, h2, d1, d2] =>
    y1.isDigit && y2.isDigit && y3.isDigit && y4.isDigit && h1 == '-' &&
    m1.isDigit && m2.isDigit && h2 == '-' && d1.isDigit && d2.isDigit &&
    (let y := natOfDigits [y1, y2, y3, y4]
     let m := natOfDigits [m1, m2]
     let d := natOfDigits [d1, d2]
     decide (1 ≤ m) && decide (m ≤ 12) && decide (1 ≤ d) && decide (d ≤ daysInMonth y m))
  | _ => false

/-- Unsigned decimal literal: digits with an optional fractional part
(`"12"`, `"12.5"`, `"12."`, `".5"`). -/
def parseUnsigned (u : Str) : Option ℚ :=
  let ip := u.takeWhile (fun c => c.isDigit)
  match u.drop ip.length with
  | [] => if ip.isEmpty then none else some (mkRat (natOfDigits ip) 1)
  | '.' :: frac =>
    if frac.all (fun c => c.isDigit) && !(ip.isEmpty && frac.isEmpty) then
      some (mkRat (natOfDigits ip * 10 ^ frac.length + natOfDigits frac) (10 ^ frac.length))
    else none
  | _ => none

/-- Modelled from the spec: the row conversion delegates amount coercion to
the Python `float` builtin, which is not part of this repository.  Per §4.4 a
non-numeric amount must fail the row; the model accepts optionally signed
decimal literals with surrounding whitespace and rejects everything else
(exponent, infinity and NaN spellings are outside the fragment exercised
here). -/
def parseAmount (s : Str) : Option ℚ :=
  match strip s with
  | '-' :: r => (parseUnsigned r).map (fun q => -q)
  | '+' :: r => parseUnsigned r
  | r => parseUnsigned r

/-- Modelled from the spec: date normalization delegates to
`pd.to_datetime(...).strftime("%Y-%m-%d")`, which is not part of this
repository.  Per §4.4 dates are parsed best-effort from common layouts and
re-serialized as `YYYY-MM-DD`, and an unparseable date must fail the row; the
model accepts valid `YYYY-MM-DD` and `MM/DD/YYYY` dates and rejects
everything else. -/
def parseDate (s : Str) : Option Str :=
  let t := strip s
  if isValidDate t then some t
  else
    match t with
    | [m1, m2, s1, d1, d2, s2, y1, y2, y3, y4] =>
      if s1 == '/' && s2 == '/' then
        let cand := [y1, y2, y3, y4, '-', m1, m2, '-', d1, d2]
        if isValidDate cand then some cand else none
      else none
    | _ => none

/-- Canonical transaction record produced by the CSV schema parsers. -/
structure Tx where
  date : Str
  description : Str
  amount : ℚ
  txType : Str
deriving DecidableEq

/-- Projection of one CSV row onto the cells read by
`parse_wells_fargo_format`; `none` models a missing column, whose access via
`row[...]` raises and skips the row, while `Description`/`Memo` are read with
`row.get` and default to the empty string. -/
structure Row where
  dateCell : Option Str
  descriptionCell : Option Str
  memoCell : Option Str
  amountCell : Option Str
deriving DecidableEq

/-- The body of the per-row `try` block of `parse_wells_fargo_format`: any
failing step (missing required column, non-numeric amount, unparseable date)
makes the whole row yield `none`, which the surrounding loop skips. -/
def wellsFargoRow (r : Row) : Option Tx :=
  match r.amountCell with
  | none => none
  | some ac =>
    match parseAmount ac with
    | none => none
    | some amt =>
      match r.dateCell with
      | none => none
      | some dc =>
        match parseDate dc with
        | none => none
        | some d =>
          some ⟨d, strip (r.descriptionCell.getD (r.memoCell.getD [])), amt,
                if amt < 0 then str "Debit" else str "Credit"⟩

/-- Translation of `parse_wells_fargo_format` from `src/services/parser.py`:
each row is converted independently, failing rows are skipped. -/
def parse_wells_fargo_format (rows : List Row) : List Tx :=
  rows.filterMap wellsFargoRow

/-- Every whitespace character of the string is a plain space. -/
def wsOnlySpace (s : Str) : Prop := ∀ c ∈ s, isWS c = true → c = ' '

/-- Adjacency relation: two neighbours are never both whitespace. -/
def nbrOK (a b : Char) : Prop := isWS a = false ∨ isWS b = false

/-- The head, if any, is not whitespace. -/
def headNW : Str → Prop
  | [] => True
  | c :: _ => isWS c = false

/-- The transaction list of the concrete aggregation example. -/
def exMonthlyTxs : List MTx :=
  [⟨str "2024-01-15", 1500.00⟩, ⟨str "2024-01-20", -50.00⟩, ⟨str "2024-01-31", -5.50⟩]

/-- The identical triple appearing on two pages of the dedup round-trip
example. -/
def exTriple : PRec := ⟨str "2024-01-15", str "Amazon.com", some (-45.67)⟩

/-- First record of the key-collision counterexample: its composite key is
`"a_b_c_1"`. -/
def exCollideA : PRec := ⟨str "a", str "b_c", some 1⟩

/-- Second record of the key-collision counterexample: a different
`(date, description, amount)` triple with the same composite key
`"a_b_c_1"`. -/
def exCollideB : PRec := ⟨str "a_b", str "c", some 1⟩

/-- A vision-collaborator record with a null amount and an invalid date. -/
def exBadRec : PRec := ⟨str "not a date", str "mystery", none⟩

/-- The rows of the concrete row-skip example: two well-formed rows around
one row whose amount cell is not numeric. -/
def exRows : List Row :=
  [⟨some (str "2024-01-05"), some (str "Payroll"), none, some (str "100.00")⟩,
   ⟨some (str "2024-01-06"), some (str "Bad row"), none, some (str "abc")⟩,
   ⟨some (str "01/15/2024"), none, some (str " Coffee "), some (str "-20.5")⟩]

/-! ## Lemmas about characters -/

/-- Helper for reasoning about `Char.ofNat` on valid code points. -/
theorem toNat_ofNat_valid (n : Nat) (h : n.isValidChar) : (Char.ofNat n).toNat = n := by
  simp [Char.ofNat, h, Char.ofNatAux, Char.toNat, UInt32.toNat, BitVec.toNat_ofNatLt]

theorem lowChar_not_upper (c : Char) :
    ¬ (65 ≤ (lowChar c).toNat ∧ (lowChar c).toNat ≤ 90) := by
  unfold lowChar
  by_cases h : 65 ≤ c.toNat ∧ c.toNat ≤ 90
  · rw [if_pos h]
    have hv : (c.toNat + 32).isValidChar := by left; omega
    rw [toNat_ofNat_valid _ hv]
    omega
  · rw [if_neg h]
    exact h

theorem lowChar_idem (c : Char) : lowChar (lowChar c) = lowChar c := by
  have h := lowChar_not_upper c
  show (if 65 ≤ (lowChar c).toNat ∧ (lowChar c).toNat ≤ 90 then
      Char.ofNat ((lowChar c).toNat + 32) else lowChar c) = lowChar c
  exact if_neg h

/-! ## Lemmas about the categorizer -/

theorem findCategory_mem_fst {rules : List (Str × List Str)} {c l cat : Str}
    (h : findCategory rules c l = some cat) : cat ∈ rules.map Prod.fst := by
  induction rules with
  | nil => simp [findCategory] at h
  | cons p rest ih =>
    obtain ⟨c0, k0⟩ := p
    rw [findCategory] at h
    by_cases hk : k0.any (kwMatches c l) = true
    · rw [if_pos hk] at h
      cases h
      simp
    · rw [if_neg hk] at h
      simp [ih h]

theorem findCategory_first {c l : Str} :
    ∀ {rules : List (Str × List Str)} {i : Nat} {cat : Str} {kws : List Str},
      rules[i]? = some (cat, kws) →
      (rules.take i).all (fun p => !(p.2.any (kwMatches c l))) = true →
      kws.any (kwMatches c l) = true →
      findCategory rules c l = some cat := by
  intro rules
  induction rules with
  | nil =>
    intro i cat kws hget hearlier hmatch
    simp at hget
  | cons p rest ih =>
    intro i cat kws hget hearlier hmatch
    obtain ⟨c0, k0⟩ := p
    match i with
    | 0 =>
      rw [List.getElem?_cons_zero] at hget
      cases hget
      rw [findCategory, if_pos hmatch]
    | j + 1 =>
      rw [List.getElem?_cons_succ] at hget
      rw [List.take_succ_cons, List.all_cons] at hearlier
      have h0 := (Bool.and_eq_true _ _).mp hearlier
      have hk : k0.any (kwMatches c l) = false := by
        have := h0.1
        simpa using this
      rw [findCategory, if_neg (by simp [hk])]
      exact ih hget h0.2 hmatch

theorem findCategory_none {rules : List (Str × List Str)} {c l : Str}
    (h : ∀ p ∈ rules, ∀ kw ∈ p.2, kwMatches c l kw = false) :
    findCategory rules c l = none := by
  induction rules with
  | nil => rfl
  | cons p rest ih =>
    obtain ⟨c0, k0⟩ := p
    have hk : k0.any (kwMatches c l) = false := by
      rw [List.any_eq_false]
      intro kw hkw
      simp [h (c0, k0) (by simp) kw hkw]
    rw [findCategory, if_neg (by simp [hk])]
    exact ih (fun q hmem kw hkw => h q (by simp [hmem]) kw hkw)

/-! ## Claim theorems for the categorizer -/

/-- C2: categorization is first-match-wins over the declared category order.
If the category at index `i` of `CATEGORY_RULES` has a matching keyword
(against the cleaned or the raw-lowercased description) and no category
before index `i` has one, then `categorize_transaction` returns that
category, for every amount; concretely, `"Amazon Web Services invoice"` is
categorized `"Software"` for every amount. -/
theorem C2_first_match_wins :
    (∀ (d : Str) (a : ℚ) (i : Nat) (cat : Str) (kws : List Str),
        CATEGORY_RULES[i]? = some (cat, kws) →
        kws.any (kwMatches (clean_description d) (lowerStr d)) = true →
        (CATEGORY_RULES.take i).all
          (fun p => !(p.2.any (kwMatches (clean_description d) (lowerStr d)))) = true →
        categorize_transaction d a = cat) ∧
    (∀ a : ℚ, categorize_transaction (str "Amazon Web Services invoice") a = str "Software") := by
  constructor
  · intro d a i cat kws hget hmatch hearlier
    have hf := findCategory_first hget hearlier hmatch
    simp only [categorize_transaction, hf]
  · intro a
    have hf : findCategory CATEGORY_RULES
        (clean_description (str "Amazon Web Services invoice"))
        (lowerStr (str "Amazon Web Services invoice")) = some (str "Software") := by decide
    simp only [categorize_transaction, hf]

/-- Witness for C2: `"Netflix"` matches the `"netflix"` keyword of
`Subscriptions` (index 1) and no keyword of `Software` (index 0), so it is
categorized `"Subscriptions"`. -/
theorem C2_first_match_wins_witness :
    categorize_transaction (str "Netflix") 1 = str "Subscriptions" :=
  C2_first_match_wins.1 (str "Netflix") 1 1 (str "Subscriptions")
    ((CATEGORY_RULES[1]?.map Prod.snd).getD []) (by decide) (by decide) (by decide)

/-- C3 counterexample: the description `"zzz"` matches no category keyword,
yet amount `4.99` is categorized `"Income"` (not `"Small Expense"`) and
amount `5.00` is categorized `"Income"` (not `"Other Expense"`), because the
positive-amount fallback is checked first. -/
theorem C3_fallback_counterexample :
    (CATEGORY_RULES.all (fun p => p.2.all (fun kw =>
        !(kwMatches (clean_description (str "zzz")) (lowerStr (str "zzz")) kw))) = true) ∧
    categorize_transaction (str "zzz") 4.99 = str "Income" ∧
    categorize_transaction (str "zzz") 5.00 = str "Income" ∧
    str "Income" ≠ str "Small Expense" ∧ str "Income" ≠ str "Other Expense" := by
  refine ⟨by decide, ?_, ?_, by decide, by decide⟩
  · rw [show (4.99 : ℚ) = mkRat 499 100 by rw [Rat.mkRat_eq_div]; norm_num]
    decide
  · rw [show (5.00 : ℚ) = mkRat 5 1 by rw [Rat.mkRat_eq_div]; norm_num]
    decide

/-- C3 (amended): for any description matching no category keyword, the
fallback returns `"Income"` for the positive amounts `4.99`, `5.00` and
`100.00`, `"Small Expense"` for `-4.99` (non-positive, absolute value below
`5`), and `"Other Expense"` for `-5.00`. -/
theorem C3_fallback_boundary (d : Str)
    (h : ∀ p ∈ CATEGORY_RULES, ∀ kw ∈ p.2,
        kwMatches (clean_description d) (lowerStr d) kw = false) :
    categorize_transaction d 4.99 = str "Income" ∧
    categorize_transaction d 5.00 = str "Income" ∧
    categorize_transaction d (-4.99) = str "Small Expense" ∧
    categorize_transaction d (-5.00) = str "Other Expense" ∧
    categorize_transaction d 100.00 = str "Income" := by
  have hn := findCategory_none h
  simp only [categorize_transaction, hn]
  refine ⟨?_, ?_, ?_, ?_, ?_⟩
  · rw [if_pos (by norm_num : (4.99 : ℚ) > 0)]
  · rw [if_pos (by norm_num : (5.00 : ℚ) > 0)]
  · rw [if_neg (by norm_num : ¬ (-4.99 : ℚ) > 0),
        if_pos (by rw [abs_of_neg (by norm_num : (-4.99 : ℚ) < 0)]; norm_num)]
  · rw [if_neg (by norm_num : ¬ (-5.00 : ℚ) > 0),
        if_neg (by rw [abs_of_neg (by norm_num : (-5.00 : ℚ) < 0)]; norm_num)]
  · rw [if_pos (by norm_num : (100.00 : ℚ) > 0)]

/-- Witness for C3 (amended): the description `"zzz"` matches no category
keyword, and the five fallback values are as stated. -/
theorem C3_fallback_boundary_witness :
    categorize_transaction (str "zzz") 4.99 = str "Income" ∧
    categorize_transaction (str "zzz") 5.00 = str "Income" ∧
    categorize_transaction (str "zzz") (-4.99) = str "Small Expense" ∧
    categorize_transaction (str "zzz") (-5.00) = str "Other Expense" ∧
    categorize_transaction (str "zzz") 100.00 = str "Income" :=
  C3_fallback_boundary (str "zzz") (by decide)

/-- C7: categorization is total: for every description and every signed
amount, `categorize_transaction` returns a non-empty category string (and,
being a total Lean function, never fails). -/
theorem C7_categorization_totality (d : Str) (a : ℚ) :
    categorize_transaction d a ≠ str "" := by
  have hne : ∀ x ∈ CATEGORY_RULES.map Prod.fst, x ≠ str "" := by decide
  simp only [categorize_transaction]
  cases hf : findCategory CATEGORY_RULES (clean_description d) (lowerStr d) with
  | some cat =>
    simp only [hf]
    exact hne cat (findCategory_mem_fst hf)
  | none =>
    simp only [hf]
    by_cases h1 : a > 0
    · rw [if_pos h1]
      decide
    · rw [if_neg h1]
      by_cases h2 : |a| < 5
      · rw [if_pos h2]
        decide
      · rw [if_neg h2]
        decide

/-- C4: format detection follows the fixed priority order: headers
`["Date", "Amount"]` (no Description) resolve to the Wells-Fargo-style
generic date/amount schema, headers
`["Posting Date", "Description", "Amount"]` resolve to the Chase schema, and
because rule 3 is strictly broader than rule 4, `detect_bank_format` never
returns `"generic"`. -/
theorem C4_format_detection :
    detect_bank_format [str "Date", str "Amount"] = str "wells_fargo" ∧
    detect_bank_format [str "Posting Date", str "Description", str "Amount"] = str "chase" ∧
    ∀ cols : List Str, detect_bank_format cols ≠ str "generic" := by
  refine ⟨by decide, by decide, ?_⟩
  intro cols
  simp only [detect_bank_format]
  split_ifs with h1 h2 h3 h4
  · decide
  · decide
  · decide
  · exfalso
    simp only [Bool.and_eq_true] at h3 h4
    exact h3 ⟨h4.1.1, h4.2⟩
  · decide

/-! ## Lemmas about the description normalizer -/

theorem mem_dephraseF {c : Char} : ∀ {fuel : Nat} {s : Str}, c ∈ dephraseF fuel s → c ∈ s := by
  intro fuel
  induction fuel with
  | zero => intro s h; exact h
  | succ n ih =>
    intro s h
    match s with
    | [] => exact h
    | x :: rest =>
      rw [dephraseF] at h
      cases hf : phrases.find? (fun p => p.isPrefixOf (x :: rest)) with
      | some p =>
        simp only [hf] at h
        exact List.mem_of_mem_drop (ih h)
      | none =>
        simp only [hf] at h
        cases h with
        | head => exact List.mem_cons_self _ _
        | tail _ h2 => exact List.mem_cons_of_mem _ (ih h2)

theorem mem_decodeF {c : Char} :
    ∀ {fuel : Nat} {b : Bool} {s : Str}, c ∈ decodeF fuel b s → c ∈ s := by
  intro fuel
  induction fuel with
  | zero => intro b s h; exact h
  | succ n ih =>
    intro b s h
    match s with
    | [] => exact h
    | x :: rest =>
      simp only [decodeF] at h
      split at h
      · exact List.mem_of_mem_drop (ih h)
      · cases h with
        | head => exact List.mem_cons_self _ _
        | tail _ h2 => exact List.mem_cons_of_mem _ (ih h2)

theorem mem_collapseAux {c : Char} {s : Str} :
    ∀ {b : Bool}, c ∈ collapseAux b s → c = ' ' ∨ c ∈ s := by
  induction s with
  | nil =>
    intro b h
    cases b <;> exact absurd h (List.not_mem_nil c)
  | cons x rest ih =>
    intro b h
    have step : ∀ h2 : c ∈ collapseAux false rest ∨ c ∈ collapseAux true rest,
        c = ' ' ∨ c ∈ x :: rest := by
      intro h2
      rcases h2 with h2 | h2 <;>
        rcases ih h2 with hc | hc <;>
        first
          | exact Or.inl hc
          | exact Or.inr (List.mem_cons_of_mem _ hc)
    cases b with
    | true =>
      simp only [collapseAux] at h
      by_cases hx : isWS x = true
      · rw [if_pos hx] at h
        exact step (Or.inr h)
      · rw [if_neg hx] at h
        cases h with
        | head => exact Or.inr (List.mem_cons_self _ _)
        | tail _ h2 => exact step (Or.inl h2)
    | false =>
      simp only [collapseAux] at h
      by_cases hx : isWS x = true
      · rw [if_pos hx] at h
        cases h with
        | head => exact Or.inl rfl
        | tail _ h2 => exact step (Or.inr h2)
      · rw [if_neg hx] at h
        cases h with
        | head => exact Or.inr (List.mem_cons_self _ _)
        | tail _ h2 => exact step (Or.inl h2)

theorem mem_strip {c : Char} {s : Str} (h : c ∈ strip s) : c ∈ s := by
  unfold strip at h
  rw [List.mem_reverse] at h
  have h1 := (List.dropWhile_suffix isWS).sublist.mem h
  rw [List.mem_reverse] at h1
  exact (List.dropWhile_suffix isWS).sublist.mem h1

theorem clean_chars {d : Str} {c : Char} (h : c ∈ clean_description d) :
    c = ' ' ∨ ∃ c0, c = lowChar c0 := by
  unfold clean_description at h
  have h1 := mem_strip h
  rcases mem_collapseAux h1 with hsp | h2
  · exact Or.inl hsp
  · have h3 : c ∈ decode (dephrase (lowerStr d)) := List.mem_of_mem_filter h2
    have h4 : c ∈ dephrase (lowerStr d) := mem_decodeF h3
    have h5 : c ∈ lowerStr d := mem_dephraseF h4
    rcases List.mem_map.mp h5 with ⟨c0, _, hc0⟩
    exact Or.inr ⟨c0, hc0.symm⟩

theorem map_eq_self_of_fix {f : Char → Char} :
    ∀ {l : Str}, (∀ c ∈ l, f c = c) → l.map f = l := by
  intro l
  induction l with
  | nil => intro _; rfl
  | cons x rest ih =>
    intro h
    rw [List.map_cons, h x (List.mem_cons_self x rest),
      ih (fun c hc => h c (List.mem_cons_of_mem x hc))]

theorem lowerStr_clean (d : Str) : lowerStr (clean_description d) = clean_description d := by
  unfold lowerStr
  apply map_eq_self_of_fix
  intro c hc
  rcases clean_chars hc with hsp | ⟨c0, hc0⟩
  · rw [hsp]
    decide
  · rw [hc0]
    exact lowChar_idem c0

theorem star_not_mem_clean (d : Str) : '*' ∉ clean_description d := by
  intro h
  unfold clean_description at h
  have h1 := mem_strip h
  rcases mem_collapseAux h1 with hsp | h2
  · exact absurd hsp (by decide)
  · have := List.of_mem_filter h2
    simp at this

theorem deast_clean (d : Str) : deast (clean_description d) = clean_description d := by
  unfold deast
  rw [List.filter_eq_self]
  intro a ha
  rw [bne_iff_ne]
  intro hE
  rw [hE] at ha
  exact star_not_mem_clean d ha


theorem wsOnlySpace_collapseAux : ∀ {s : Str} {b : Bool}, wsOnlySpace (collapseAux b s) := by
  intro s
  induction s with
  | nil =>
    intro b c hc _
    cases b <;> exact absurd hc (List.not_mem_nil c)
  | cons x rest ih =>
    intro b c hc hws
    cases b with
    | true =>
      simp only [collapseAux] at hc
      by_cases hx : isWS x = true
      · rw [if_pos hx] at hc
        exact ih c hc hws
      · rw [if_neg hx] at hc
        cases hc with
        | head => exact absurd hws (by simp [hx])
        | tail _ h2 => exact ih c h2 hws
    | false =>
      simp only [collapseAux] at hc
      by_cases hx : isWS x = true
      · rw [if_pos hx] at hc
        cases hc with
        | head => rfl
        | tail _ h2 => exact ih c h2 hws
      · rw [if_neg hx] at hc
        cases hc with
        | head => exact absurd hws (by simp [hx])
        | tail _ h2 => exact ih c h2 hws

theorem headNW_collapseAux_true : ∀ {s : Str}, headNW (collapseAux true s) := by
  intro s
  induction s with
  | nil => trivial
  | cons x rest ih =>
    simp only [collapseAux]
    by_cases hx : isWS x = true
    · rw [if_pos hx]
      exact ih
    · rw [if_neg hx]
      show isWS x = false
      exact eq_false_of_ne_true hx

theorem noTwoWS_collapseAux : ∀ {s : Str} {b : Bool}, List.Chain' nbrOK (collapseAux b s) := by
  intro s
  induction s with
  | nil =>
    intro b
    cases b <;> exact List.chain'_nil
  | cons x rest ih =>
    intro b
    have hcons : ∀ y : Char, isWS y = false →
        List.Chain' nbrOK (y :: collapseAux false rest) := by
      intro y hy
      rw [List.chain'_cons']
      exact ⟨fun z _ => Or.inl hy, ih⟩
    cases b with
    | true =>
      simp only [collapseAux]
      by_cases hx : isWS x = true
      · rw [if_pos hx]
        exact ih
      · rw [if_neg hx]
        exact hcons x (eq_false_of_ne_true hx)
    | false =>
      simp only [collapseAux]
      by_cases hx : isWS x = true
      · rw [if_pos hx]
        rw [List.chain'_cons']
        refine ⟨?_, ih⟩
        intro y hy
        right
        have hh : headNW (collapseAux true rest) := headNW_collapseAux_true
        cases hcr : collapseAux true rest with
        | nil =>
          rw [hcr] at hy
          exact absurd hy (by simp)
        | cons z zs =>
          rw [hcr] at hy
          rw [hcr] at hh
          simp at hy
          rw [← hy]
          exact hh
      · rw [if_neg hx]
        exact hcons x (eq_false_of_ne_true hx)

theorem collapseAux_eq_self : ∀ {s : Str}, wsOnlySpace s → List.Chain' nbrOK s →
    collapseAux false s = s ∧ (headNW s → collapseAux true s = s) := by
  intro s
  induction s with
  | nil =>
    intro _ _
    exact ⟨rfl, fun _ => rfl⟩
  | cons x rest ih =>
    intro hws hnt
    have hwsr : wsOnlySpace rest := fun c hc h => hws c (List.mem_cons_of_mem _ hc) h
    have hntr : List.Chain' nbrOK rest := (List.chain'_cons'.mp hnt).2
    have ihr := ih hwsr hntr
    constructor
    · simp only [collapseAux]
      by_cases hx : isWS x = true
      · rw [if_pos hx]
        have hx2 : x = ' ' := hws x (List.mem_cons_self _ _) hx
        have hhr : headNW rest := by
          cases rest with
          | nil => trivial
          | cons z zs =>
            rcases (List.chain'_cons'.mp hnt).1 z (by simp) with h | h
            · rw [hx] at h
              cases h
            · exact h
        rw [ihr.2 hhr, hx2]
      · rw [if_neg hx, ihr.1]
    · intro hh
      have hx : isWS x = false := hh
      simp only [collapseAux]
      rw [if_neg (by simp [hx]), ihr.1]

theorem headNW_dropWhile (s : Str) : headNW (s.dropWhile isWS) := by
  induction s with
  | nil => trivial
  | cons x rest ih =>
    rw [List.dropWhile_cons]
    by_cases hx : isWS x = true
    · rw [if_pos hx]
      exact ih
    · rw [if_neg hx]
      show isWS x = false
      exact eq_false_of_ne_true hx

theorem headNW_of_isPre {s t : Str} (h : s <+: t) (ht : headNW t) : headNW s := by
  cases s with
  | nil => trivial
  | cons x xs =>
    rcases h with ⟨u, hu⟩
    rw [← hu] at ht
    exact ht

theorem dropWhile_eq_self_of_headNW {s : Str} (h : headNW s) : s.dropWhile isWS = s := by
  cases s with
  | nil => rfl
  | cons x xs =>
    have h2 : isWS x = false := h
    rw [List.dropWhile_cons, if_neg (by simp [h2])]

theorem strip_eq_self {s : Str} (h1 : headNW s) (h2 : headNW s.reverse) : strip s = s := by
  unfold strip
  rw [dropWhile_eq_self_of_headNW h1, dropWhile_eq_self_of_headNW h2, List.reverse_reverse]

theorem strip_isPre (u : Str) : strip u <+: u.dropWhile isWS := by
  unfold strip
  have h1 : (u.dropWhile isWS).reverse.dropWhile isWS <:+ (u.dropWhile isWS).reverse :=
    List.dropWhile_suffix isWS
  have h2 := List.reverse_prefix.mpr h1
  rwa [List.reverse_reverse] at h2

theorem headNW_strip (u : Str) : headNW (strip u) :=
  headNW_of_isPre (strip_isPre u) (headNW_dropWhile u)

theorem headNW_strip_reverse (u : Str) : headNW (strip u).reverse := by
  unfold strip
  rw [List.reverse_reverse]
  exact headNW_dropWhile _

theorem wsOnlySpace_strip {u : Str} (h : wsOnlySpace u) : wsOnlySpace (strip u) :=
  fun c hc hws => h c (mem_strip hc) hws

theorem noTwoWS_strip {u : Str} (h : List.Chain' nbrOK u) : List.Chain' nbrOK (strip u) := by
  have h1 : List.Chain' nbrOK (u.dropWhile isWS) := h.suffix (List.dropWhile_suffix isWS)
  exact h1.prefix (strip_isPre u)

theorem strip_collapse_strip_collapse (t : Str) :
    strip (collapse (strip (collapse t))) = strip (collapse t) := by
  have hws : wsOnlySpace (strip (collapse t)) :=
    wsOnlySpace_strip (fun c hc h => wsOnlySpace_collapseAux c hc h)
  have hnt : List.Chain' nbrOK (strip (collapse t)) := noTwoWS_strip noTwoWS_collapseAux
  have hcs : collapseAux false (strip (collapse t)) = strip (collapse t) :=
    (collapseAux_eq_self hws hnt).1
  show strip (collapseAux false (strip (collapse t))) = strip (collapse t)
  rw [hcs]
  exact strip_eq_self (headNW_strip _) (headNW_strip_reverse _)

theorem strip_collapse_clean (d : Str) :
    strip (collapse (clean_description d)) = clean_description d :=
  strip_collapse_strip_collapse (deast (decode (dephrase (lowerStr d))))

/-! ## Claim theorems for the description normalizer -/

/-- C1 counterexample: `clean_description` is not idempotent.  On
`"debit card purch*ase"` the asterisk removal exposes the boilerplate phrase
`"debit card purchase"`, which a second application then deletes, so the
second application is not a no-op. -/
theorem C1_not_idempotent :
    clean_description (clean_description (str "debit card purch*ase")) ≠
      clean_description (str "debit card purch*ase") := by decide

/-- C1 (amended): `clean_description` re-applied to its own output is a
no-op provided that output contains no occurrence of a boilerplate phrase
and no standalone 6-to-10-digit code (the two removal stages that the first
pass can newly expose); the lowercase, asterisk-removal and
whitespace-normalization stages are always stable on a cleaned string. -/
theorem C1_conditional_idempotence (d : Str)
    (h1 : dephrase (clean_description d) = clean_description d)
    (h2 : decode (clean_description d) = clean_description d) :
    clean_description (clean_description d) = clean_description d := by
  show strip (collapse (deast (decode (dephrase (lowerStr (clean_description d)))))) =
    clean_description d
  rw [lowerStr_clean, h1, h2, deast_clean]
  exact strip_collapse_clean d

/-- Witness for C1 (amended): the cleaned form of `"Hello  World"` contains
no boilerplate phrase and no digit code, and cleaning it again is a no-op. -/
theorem C1_conditional_idempotence_witness :
    clean_description (clean_description (str "Hello  World")) =
      clean_description (str "Hello  World") :=
  C1_conditional_idempotence (str "Hello  World") (by decide) (by decide)

/-! ## Lemmas about the aggregation functions -/

theorem lookupA_addTx {acc : List (Str × MonthAgg)} {k m : Str} {a : ℚ} :
    lookupA (addTx acc k a) m =
      if k = m then some (bump ((lookupA acc k).getD ⟨0, 0, 0⟩) a) else lookupA acc m := by
  induction acc with
  | nil =>
    by_cases h : k = m <;> simp [addTx, lookupA, h]
  | cons kv rest ih =>
    obtain ⟨k0, v⟩ := kv
    by_cases hk : k0 = k
    · subst hk
      by_cases hm : k0 = m
      · subst hm
        simp [addTx, lookupA]
      · simp [addTx, lookupA, hm]
    · by_cases hm : k0 = m
      · subst hm
        rw [if_neg (fun h : k = k0 => hk h.symm)]
        simp [addTx, lookupA, hk]
      · simp [addTx, lookupA, hk, hm, ih]

theorem monthly_foldl_lookup :
    ∀ (ts : List MTx) (acc : List (Str × MonthAgg)) (m : Str),
      lookupA (ts.foldl (fun mm t => addTx mm (t.date.take 7) t.amount) acc) m =
        match lookupA acc m with
        | some v => some ⟨v.revenue + monthRevenue ts m, v.expenses + monthExpenses ts m,
            v.net_income⟩
        | none =>
          if m ∈ ts.map (fun t => t.date.take 7) then
            some ⟨monthRevenue ts m, monthExpenses ts m, 0⟩
          else none := by
  intro ts
  induction ts with
  | nil =>
    intro acc m
    simp only [List.foldl_nil, monthRevenue, monthExpenses]
    cases h : lookupA acc m with
    | some v => simp
    | none => simp
  | cons t ts ih =>
    intro acc m
    rw [List.foldl_cons, ih, lookupA_addTx]
    by_cases hm : t.date.take 7 = m
    · rw [if_pos hm]
      cases hacc : lookupA acc m with
      | some v =>
        rw [hm, hacc]
        simp only [Option.getD_some]
        by_cases ha : t.amount > 0
        · simp only [bump, if_pos ha, monthRevenue, monthExpenses, if_pos (And.intro hm ha),
            if_neg (fun hand : t.date.take 7 = m ∧ ¬ t.amount > 0 => hand.2 ha)]
          simp only [Option.some_inj, MonthAgg.mk.injEq]
          refine ⟨by ring_nf, by ring_nf, trivial⟩
        · simp only [bump, if_neg ha, monthRevenue, monthExpenses,
            if_neg (fun hand : t.date.take 7 = m ∧ t.amount > 0 => ha hand.2),
            if_pos (And.intro hm ha)]
          simp only [Option.some_inj, MonthAgg.mk.injEq]
          refine ⟨by ring_nf, by ring_nf, trivial⟩
      | none =>
        rw [hm, hacc]
        simp only [Option.getD_none, List.map_cons, hm, List.mem_cons, true_or, if_pos]
        by_cases ha : t.amount > 0
        · simp only [bump, if_pos ha, monthRevenue, monthExpenses, if_pos (And.intro hm ha),
            if_neg (fun hand : t.date.take 7 = m ∧ ¬ t.amount > 0 => hand.2 ha)]
          simp only [Option.some_inj, MonthAgg.mk.injEq]
          refine ⟨by ring_nf, by ring_nf, trivial⟩
        · simp only [bump, if_neg ha, monthRevenue, monthExpenses,
            if_neg (fun hand : t.date.take 7 = m ∧ t.amount > 0 => ha hand.2),
            if_pos (And.intro hm ha)]
          simp only [Option.some_inj, MonthAgg.mk.injEq]
          refine ⟨by ring_nf, by ring_nf, trivial⟩
    · rw [if_neg hm]
      have hncond1 : ¬ (t.date.take 7 = m ∧ t.amount > 0) := fun hand => hm hand.1
      have hncond2 : ¬ (t.date.take 7 = m ∧ ¬ t.amount > 0) := fun hand => hm hand.1
      cases hacc : lookupA acc m with
      | some v =>
        simp only [monthRevenue, monthExpenses, if_neg hncond1, if_neg hncond2, zero_add]
      | none =>
        have hmem : (m ∈ (t :: ts).map fun t => t.date.take 7) ↔
            (m ∈ ts.map fun t => t.date.take 7) := by
          simp only [List.map_cons, List.mem_cons]
          constructor
          · intro h
            rcases h with h | h
            · exact absurd h.symm hm
            · exact h
          · intro h
            exact Or.inr h
        simp only [monthRevenue, monthExpenses, if_neg hncond1, if_neg hncond2, zero_add, hmem]

theorem lookupA_map_net (l : List (Str × MonthAgg)) (m : Str) :
    lookupA (l.map (fun kv =>
        (kv.1, { kv.2 with net_income := kv.2.revenue - kv.2.expenses }))) m =
      (lookupA l m).map (fun v => { v with net_income := v.revenue - v.expenses }) := by
  induction l with
  | nil => rfl
  | cons kv rest ih =>
    obtain ⟨k, v⟩ := kv
    simp only [List.map_cons, lookupA]
    by_cases h : k = m
    · rw [if_pos h, if_pos h]
      rfl
    · rw [if_neg h, if_neg h, ih]

theorem lookupA_monthly (ts : List MTx) (m : Str) :
    lookupA (get_monthly_summary ts) m =
      if m ∈ ts.map (fun t => t.date.take 7) then
        some ⟨monthRevenue ts m, monthExpenses ts m, monthRevenue ts m - monthExpenses ts m⟩
      else none := by
  unfold get_monthly_summary
  rw [lookupA_map_net, monthly_foldl_lookup ts [] m]
  show (if m ∈ ts.map (fun t => t.date.take 7) then
      some (⟨monthRevenue ts m, monthExpenses ts m, 0⟩ : MonthAgg) else none).map _ = _
  by_cases hmem : m ∈ ts.map (fun t => t.date.take 7)
  · rw [if_pos hmem, if_pos hmem]
    rfl
  · rw [if_neg hmem, if_neg hmem]
    rfl

theorem monthRevenue_nonneg (ts : List MTx) (m : Str) : 0 ≤ monthRevenue ts m := by
  induction ts with
  | nil => exact le_refl 0
  | cons t ts ih =>
    rw [monthRevenue]
    apply add_nonneg _ ih
    split_ifs with h
    · exact le_of_lt h.2
    · exact le_refl 0

theorem monthExpenses_nonneg (ts : List MTx) (m : Str) : 0 ≤ monthExpenses ts m := by
  induction ts with
  | nil => exact le_refl 0
  | cons t ts ih =>
    rw [monthExpenses]
    apply add_nonneg _ ih
    split_ifs with h
    · exact abs_nonneg _
    · exact le_refl 0

/-! ## Claim theorems for the aggregation functions -/

/-- C5: `get_monthly_summary` groups transactions by the first 7 characters
of the date; every month in the result carries the sum of that month's
positive amounts as `revenue`, the sum of absolute values of that month's
non-positive amounts as `expenses` (both non-negative), and
`net_income = revenue - expenses`; a month is present exactly when some
transaction has it as date prefix; and the concrete three-transaction
January example aggregates to `{revenue 1500.00, expenses 55.50,
net_income 1444.50}`. -/
theorem C5_monthly_summary :
    (∀ (ts : List MTx) (m : Str) (agg : MonthAgg),
        lookupA (get_monthly_summary ts) m = some agg →
        agg.revenue = monthRevenue ts m ∧
        agg.expenses = monthExpenses ts m ∧
        agg.net_income = monthRevenue ts m - monthExpenses ts m ∧
        0 ≤ agg.revenue ∧ 0 ≤ agg.expenses) ∧
    (∀ (ts : List MTx) (m : Str),
        (lookupA (get_monthly_summary ts) m).isSome = true ↔
          m ∈ ts.map (fun t => t.date.take 7)) ∧
    get_monthly_summary exMonthlyTxs = [(str "2024-01", ⟨1500.00, 55.50, 1444.50⟩)] := by
  refine ⟨?_, ?_, ?_⟩
  · intro ts m agg h
    rw [lookupA_monthly] at h
    by_cases hmem : m ∈ ts.map (fun t => t.date.take 7)
    · rw [if_pos hmem] at h
      cases h
      exact ⟨rfl, rfl, rfl, monthRevenue_nonneg ts m, monthExpenses_nonneg ts m⟩
    · rw [if_neg hmem] at h
      cases h
  · intro ts m
    rw [lookupA_monthly]
    by_cases hmem : m ∈ ts.map (fun t => t.date.take 7)
    · rw [if_pos hmem]
      simp [hmem]
    · rw [if_neg hmem]
      simp [hmem]
  · with_unfolding_all rfl

/-- Witness for C5: the concrete example instantiates the lookup
characterization at month `"2024-01"`. -/
theorem C5_monthly_summary_witness :
    (⟨1500.00, 55.50, 1444.50⟩ : MonthAgg).revenue = monthRevenue exMonthlyTxs (str "2024-01") ∧
    (⟨1500.00, 55.50, 1444.50⟩ : MonthAgg).expenses = monthExpenses exMonthlyTxs (str "2024-01") ∧
    (⟨1500.00, 55.50, 1444.50⟩ : MonthAgg).net_income =
      monthRevenue exMonthlyTxs (str "2024-01") - monthExpenses exMonthlyTxs (str "2024-01") ∧
    0 ≤ (⟨1500.00, 55.50, 1444.50⟩ : MonthAgg).revenue ∧
    0 ≤ (⟨1500.00, 55.50, 1444.50⟩ : MonthAgg).expenses :=
  C5_monthly_summary.1 exMonthlyTxs (str "2024-01") ⟨1500.00, 55.50, 1444.50⟩
    (by with_unfolding_all rfl)

theorem lookupA_addAmt {acc : List (Str × ℚ)} {k m : Str} {a : ℚ} :
    lookupA (addAmt acc k a) m =
      if k = m then
        some (match lookupA acc k with | some v => v + a | none => a)
      else lookupA acc m := by
  induction acc with
  | nil =>
    by_cases h : k = m <;> simp [addAmt, lookupA, h]
  | cons kv rest ih =>
    obtain ⟨k0, v⟩ := kv
    by_cases hk : k0 = k
    · subst hk
      by_cases hm : k0 = m
      · subst hm
        simp [addAmt, lookupA]
      · simp [addAmt, lookupA, hm]
    · by_cases hm : k0 = m
      · subst hm
        rw [if_neg (fun h : k = k0 => hk h.symm)]
        simp [addAmt, lookupA, hk]
      · simp [addAmt, lookupA, hk, hm, ih]

theorem category_foldl_lookup :
    ∀ (ts : List CTx) (acc : List (Str × ℚ)) (c : Str),
      lookupA (ts.foldl (fun mm t => addAmt mm (catOf t) t.amount) acc) c =
        match lookupA acc c with
        | some v => some (v + catSum ts c)
        | none => if c ∈ ts.map catOf then some (catSum ts c) else none := by
  intro ts
  induction ts with
  | nil =>
    intro acc c
    simp only [List.foldl_nil, catSum]
    cases h : lookupA acc c with
    | some v => simp
    | none => simp
  | cons t ts ih =>
    intro acc c
    rw [List.foldl_cons, ih, lookupA_addAmt]
    by_cases hk : catOf t = c
    · rw [if_pos hk, hk]
      cases hacc : lookupA acc c with
      | some v =>
        simp only [catSum, if_pos hk]
        rw [add_assoc]
      | none =>
        simp only [catSum, if_pos hk, List.map_cons, hk, List.mem_cons, true_or, if_pos]
    · rw [if_neg hk]
      have hmem : (c ∈ (t :: ts).map catOf) ↔ (c ∈ ts.map catOf) := by
        simp only [List.map_cons, List.mem_cons]
        constructor
        · intro h
          rcases h with h | h
          · exact absurd h.symm hk
          · exact h
        · intro h
          exact Or.inr h
      cases hacc : lookupA acc c with
      | some v => simp only [catSum, if_neg hk, zero_add]
      | none => simp only [catSum, if_neg hk, zero_add, hmem]

/-- C10: `get_category_summary` accumulates a record without a category
under `"Other"` (via the dict-get default) instead of failing; the resulting
map sends each category that occurs (after defaulting) to the sum of its
records' amounts and has no other keys; and the concrete example with two
category-less records accumulates them under `"Other"`. -/
theorem C10_category_summary :
    (∀ (ts : List CTx) (c : Str),
        lookupA (get_category_summary ts) c =
          if c ∈ ts.map catOf then some (catSum ts c) else none) ∧
    (∀ t : CTx, t.category = none → catOf t = str "Other") ∧
    get_category_summary [⟨none, 7⟩, ⟨some (str "Revenue"), 3⟩, ⟨none, 2⟩] =
      [(str "Other", 9), (str "Revenue", 3)] := by
  refine ⟨?_, ?_, by with_unfolding_all rfl⟩
  · intro ts c
    unfold get_category_summary
    rw [category_foldl_lookup ts [] c]
    rfl
  · intro t h
    rw [catOf, h]
    rfl

/-- Witness for C10: a record with no category field is accumulated under
`"Other"`, instantiated on the concrete example list. -/
theorem C10_category_summary_witness :
    catOf ⟨none, 7⟩ = str "Other" ∧
    lookupA (get_category_summary [⟨none, 7⟩, ⟨some (str "Revenue"), 3⟩, ⟨none, 2⟩])
        (str "Other") =
      if str "Other" ∈ ([⟨none, 7⟩, ⟨some (str "Revenue"), 3⟩, ⟨none, 2⟩] : List CTx).map catOf
      then some (catSum [⟨none, 7⟩, ⟨some (str "Revenue"), 3⟩, ⟨none, 2⟩] (str "Other"))
      else none :=
  ⟨C10_category_summary.2.1 ⟨none, 7⟩ rfl,
   C10_category_summary.1 [⟨none, 7⟩, ⟨some (str "Revenue"), 3⟩, ⟨none, 2⟩] (str "Other")⟩

/-! ## Lemmas about the PDF merge step -/

theorem strLe_trans : ∀ (a b c : Str), strLe a b = true → strLe b c = true → strLe a c = true := by
  intro a
  induction a with
  | nil => intro b c _ _; rfl
  | cons x xs ih =>
    intro b c hab hbc
    cases b with
    | nil => rw [strLe] at hab; cases hab
    | cons y ys =>
      cases c with
      | nil => rw [strLe] at hbc; cases hbc
      | cons z zs =>
        rw [strLe] at hab hbc ⊢
        rcases Nat.lt_trichotomy x.toNat y.toNat with h1 | h1 | h1
        · rcases Nat.lt_trichotomy y.toNat z.toNat with h2 | h2 | h2
          · rw [if_pos (by omega)]
          · rw [if_pos (by omega)]
          · rw [if_neg (by omega), if_pos h2] at hbc
            cases hbc
        · rcases Nat.lt_trichotomy y.toNat z.toNat with h2 | h2 | h2
          · rw [if_pos (by omega)]
          · rw [if_neg (by omega), if_neg (by omega)] at hab
            rw [if_neg (by omega), if_neg (by omega)] at hbc
            rw [if_neg (by omega), if_neg (by omega)]
            exact ih ys zs hab hbc
          · rw [if_neg (by omega), if_pos h2] at hbc
            cases hbc
        · rw [if_neg (by omega), if_pos h1] at hab
          cases hab

theorem strLe_total : ∀ (a b : Str), strLe a b = true ∨ strLe b a = true := by
  intro a
  induction a with
  | nil => intro b; exact Or.inl rfl
  | cons x xs ih =>
    intro b
    cases b with
    | nil => exact Or.inr rfl
    | cons y ys =>
      rw [strLe, strLe]
      rcases Nat.lt_trichotomy x.toNat y.toNat with h | h | h
      · left
        rw [if_pos h]
      · rcases ih ys with h2 | h2
        · left
          rw [if_neg (by omega), if_neg (by omega)]
          exact h2
        · right
          rw [if_neg (by omega), if_neg (by omega)]
          exact h2
      · right
        rw [if_pos h]

theorem dedupAux_sublist : ∀ (seen : List Str) (l : List PRec), List.Sublist (dedupAux seen l) l := by
  intro seen l
  induction l generalizing seen with
  | nil => exact List.Sublist.refl []
  | cons r rest ih =>
    rw [dedupAux]
    by_cases h : pKey r ∈ seen
    · rw [if_pos h]
      exact (ih seen).cons r
    · rw [if_neg h]
      exact (ih _).cons₂ r

theorem mem_dedupAux_not_seen :
    ∀ {seen : List Str} {l : List PRec} {r : PRec}, r ∈ dedupAux seen l → pKey r ∉ seen := by
  intro seen l
  induction l generalizing seen with
  | nil =>
    intro r h
    exact absurd h (List.not_mem_nil r)
  | cons x rest ih =>
    intro r h
    rw [dedupAux] at h
    by_cases hx : pKey x ∈ seen
    · rw [if_pos hx] at h
      exact ih h
    · rw [if_neg hx] at h
      cases h with
      | head => exact hx
      | tail _ h2 =>
        have h3 := ih h2
        intro hmem
        exact h3 (List.mem_cons_of_mem _ hmem)

theorem nodup_keys_dedupAux : ∀ (seen : List Str) (l : List PRec),
    ((dedupAux seen l).map pKey).Nodup := by
  intro seen l
  induction l generalizing seen with
  | nil => exact List.nodup_nil
  | cons x rest ih =>
    rw [dedupAux]
    by_cases hx : pKey x ∈ seen
    · rw [if_pos hx]
      exact ih seen
    · rw [if_neg hx]
      rw [List.map_cons, List.nodup_cons]
      constructor
      · intro hmem
        rcases List.mem_map.mp hmem with ⟨q, hq, hkey⟩
        exact mem_dedupAux_not_seen hq (by rw [hkey]; exact List.mem_cons_self _ _)
      · exact ih _

theorem key_covered_dedupAux : ∀ (seen : List Str) (l : List PRec) (r : PRec), r ∈ l →
    pKey r ∈ seen ∨ ∃ q ∈ dedupAux seen l, pKey q = pKey r := by
  intro seen l
  induction l generalizing seen with
  | nil =>
    intro r h
    exact absurd h (List.not_mem_nil r)
  | cons x rest ih =>
    intro r h
    rw [dedupAux]
    by_cases hx : pKey x ∈ seen
    · rw [if_pos hx]
      cases h with
      | head => exact Or.inl hx
      | tail _ h2 => exact ih seen r h2
    · rw [if_neg hx]
      cases h with
      | head => exact Or.inr ⟨_, List.mem_cons_self _ _, rfl⟩
      | tail _ h2 =>
        rcases ih (pKey x :: seen) r h2 with hs | ⟨q, hq, hkey⟩
        · rcases List.mem_cons.mp hs with heq | hs2
          · exact Or.inr ⟨_, List.mem_cons_self _ _, heq.symm⟩
          · exact Or.inl hs2
        · exact Or.inr ⟨q, List.mem_cons_of_mem _ hq, hkey⟩

theorem find_first_dedupAux : ∀ (seen : List Str) (l : List PRec) (r : PRec),
    r ∈ dedupAux seen l → l.find? (fun x => pKey x == pKey r) = some r := by
  intro seen l
  induction l generalizing seen with
  | nil =>
    intro r h
    exact absurd h (List.not_mem_nil r)
  | cons x rest ih =>
    intro r h
    rw [dedupAux] at h
    by_cases hx : pKey x ∈ seen
    · rw [if_pos hx] at h
      have hne : ¬ pKey x = pKey r := by
        intro heq
        exact mem_dedupAux_not_seen h (heq ▸ hx)
      rw [List.find?_cons_of_neg _ (by simp [hne])]
      exact ih seen r h
    · rw [if_neg hx] at h
      cases h with
      | head => rw [List.find?_cons_of_pos _ (by simp)]
      | tail _ h2 =>
        have hne : ¬ pKey x = pKey r := by
          intro heq
          exact mem_dedupAux_not_seen h2 (by rw [← heq]; exact List.mem_cons_self _ _)
        rw [List.find?_cons_of_neg _ (by simp [hne])]
        exact ih _ r h2

theorem mem_parse_pdf_flatten {pages : List (List PRec)} {r : PRec}
    (h : r ∈ parse_pdf_statement pages) : r ∈ pages.flatten := by
  unfold parse_pdf_statement at h
  have h1 := (dedupAux_sublist _ _).mem h
  exact (List.perm_insertionSort pdfLe pages.flatten).mem_iff.mp h1

/-! ## Claim theorems for the PDF merge step -/

/-- C6 counterexample: the dedup key is the underscore-joined string, so the
two distinct triples `("a", "b_c", 1)` and `("a_b", "c", 1)` collide; the
merged output of the two pages contains no record for the second triple,
refuting that the output has exactly one record for each collected triple. -/
theorem C6_distinct_triple_conflated :
    parse_pdf_statement [[exCollideA], [exCollideB]] = [exCollideA] ∧
    exCollideB ∈ ([[exCollideA], [exCollideB]] : List (List PRec)).flatten ∧
    exCollideB ∉ [exCollideA] ∧ exCollideB ≠ exCollideA := by
  refine ⟨by with_unfolding_all rfl, by decide, by decide, by decide⟩

/-- C6 (amended): after collecting the page results, `parse_pdf_statement`
sorts by date ascending and keeps exactly one record per composite key
`date_description_amount`: the output is sorted, its keys are pairwise
distinct, every collected record's key is represented, and each surviving
record is the first occurrence of its key in the post-sort order; identical
triples always share a key, so at most one copy of each triple survives, but
distinct triples whose keys coincide are also conflated. -/
theorem C6_sort_dedup :
    (∀ pages : List (List PRec), (parse_pdf_statement pages).Pairwise pdfLe) ∧
    (∀ pages : List (List PRec), ((parse_pdf_statement pages).map pKey).Nodup) ∧
    (∀ (pages : List (List PRec)) (r : PRec), r ∈ pages.flatten →
        ∃ q ∈ parse_pdf_statement pages, pKey q = pKey r) ∧
    (∀ (pages : List (List PRec)) (r : PRec), r ∈ parse_pdf_statement pages →
        (List.insertionSort pdfLe pages.flatten).find? (fun x => pKey x == pKey r) = some r) ∧
    parse_pdf_statement [[exTriple], [exTriple]] = [exTriple] := by
  refine ⟨?_, ?_, ?_, ?_, by with_unfolding_all rfl⟩
  · intro pages
    haveI : IsTrans PRec pdfLe := ⟨fun a b c => strLe_trans a.date b.date c.date⟩
    haveI : IsTotal PRec pdfLe := ⟨fun a b => strLe_total a.date b.date⟩
    exact List.Pairwise.sublist (dedupAux_sublist _ _) (List.sorted_insertionSort pdfLe _)
  · intro pages
    exact nodup_keys_dedupAux [] _
  · intro pages r h
    have h1 : r ∈ List.insertionSort pdfLe pages.flatten :=
      (List.perm_insertionSort pdfLe pages.flatten).mem_iff.mpr h
    rcases key_covered_dedupAux [] _ r h1 with hs | hex
    · exact absurd hs (List.not_mem_nil _)
    · exact hex
  · intro pages r h
    exact find_first_dedupAux [] _ r h

/-- Witness for C6 (amended): on the collision example, the second record's
key is represented in the output, and the surviving record is the first
post-sort occurrence of its key. -/
theorem C6_sort_dedup_witness :
    (∃ q ∈ parse_pdf_statement [[exCollideA], [exCollideB]], pKey q = pKey exCollideB) ∧
    (List.insertionSort pdfLe ([[exCollideA], [exCollideB]] : List (List PRec)).flatten).find?
        (fun x => pKey x == pKey exCollideA) = some exCollideA :=
  ⟨C6_sort_dedup.2.2.1 [[exCollideA], [exCollideB]] exCollideB (by decide),
   C6_sort_dedup.2.2.2.1 [[exCollideA], [exCollideB]] exCollideA (by decide)⟩

/-- C9 counterexample: `parse_pdf_statement` performs no re-validation of
the vision collaborator's records: a record with a null amount and an
invalid date string is retained in the returned list, not excluded. -/
theorem C9_invalid_record_retained :
    parse_pdf_statement [[exBadRec]] = [exBadRec] ∧
    exBadRec.amount = none ∧
    isValidDate exBadRec.date = false := by
  refine ⟨by with_unfolding_all rfl, rfl, by decide⟩

/-- C9 (amended): the PDF pipeline does not validate the collaborator's
fields: every returned record is one of the collected records, unchanged
(the merge only sorts and key-deduplicates), and records with a null amount
or an invalid date are retained rather than excluded, as the concrete
instance shows. -/
theorem C9_no_field_validation :
    (∀ (pages : List (List PRec)) (r : PRec), r ∈ parse_pdf_statement pages →
        r ∈ pages.flatten) ∧
    parse_pdf_statement [[exBadRec]] = [exBadRec] ∧
    exBadRec.amount = none ∧
    isValidDate exBadRec.date = false := by
  refine ⟨?_, by with_unfolding_all rfl, rfl, by decide⟩
  intro pages r h
  exact mem_parse_pdf_flatten h

/-- Witness for C9 (amended): the retained invalid record is indeed one of
the collected records. -/
theorem C9_no_field_validation_witness :
    exBadRec ∈ ([[exBadRec]] : List (List PRec)).flatten :=
  C9_no_field_validation.1 [[exBadRec]] exBadRec (by decide)

/-! ## Lemmas and claim theorems for the CSV row parser -/

theorem length_filterMap_eq_count (f : Row → Option Tx) :
    ∀ rows : List Row,
      (rows.filterMap f).length = (rows.filter (fun r => (f r).isSome)).length := by
  intro rows
  induction rows with
  | nil => rfl
  | cons r rest ih =>
    rw [List.filterMap_cons, List.filter_cons]
    cases hf : f r with
    | some t => simp [hf, ih]
    | none => simp [hf, ih]

/-- C8: the Wells-Fargo schema parser skips exactly the failing rows: the
output length counts the rows whose conversion succeeds, every row that
converts contributes its transaction, it never fails (it is a total
function), and the concrete three-row CSV with one non-numeric amount yields
exactly the two well-formed transactions. -/
theorem C8_row_skip :
    (∀ rows : List Row, (parse_wells_fargo_format rows).length =
        (rows.filter (fun r => (wellsFargoRow r).isSome)).length) ∧
    (∀ (rows : List Row) (r : Row) (t : Tx), r ∈ rows → wellsFargoRow r = some t →
        t ∈ parse_wells_fargo_format rows) ∧
    wellsFargoRow ⟨some (str "2024-01-06"), some (str "Bad row"), none, some (str "abc")⟩ =
      none ∧
    parse_wells_fargo_format exRows =
      [⟨str "2024-01-05", str "Payroll", 100.00, str "Credit"⟩,
       ⟨str "2024-01-15", str "Coffee", -20.5, str "Debit"⟩] := by
  refine ⟨length_filterMap_eq_count wellsFargoRow, ?_, by decide, by with_unfolding_all rfl⟩
  intro rows r t hr ht
  unfold parse_wells_fargo_format
  exact List.mem_filterMap.mpr ⟨r, hr, ht⟩

/-- Witness for C8: the first well-formed row of the example contributes its
transaction to the output. -/
theorem C8_row_skip_witness :
    (⟨str "2024-01-05", str "Payroll", 100.00, str "Credit"⟩ : Tx) ∈
      parse_wells_fargo_format exRows :=
  C8_row_skip.2.1 exRows
    ⟨some (str "2024-01-05"), some (str "Payroll"), none, some (str "100.00")⟩
    ⟨str "2024-01-05", str "Payroll", 100.00, str "Credit"⟩
    (by decide) (by with_unfolding_all rfl)

end BankToCFO
